import Mathlib

/-!
Shallow embedding of `rules/require-mut.js` (`createMutRule`), the shared
factory behind the `require-mut-param` and `require-mut-var` ESLint rules of
eslint-plugin-mutate.  The embedding models the ESTree fragment the rule
inspects (identifiers, non-computed member accesses, assignments, update
expressions, calls, function declarations/expressions, arrow functions,
variable declarators) and the rule's visitors as a depth-first traversal with
explicit state, mirroring the source line by line.
-/

namespace Mutate

/-- A TypeScript type annotation as far as the rule looks at it: a
`TSTypeReference` whose `typeName` is an `Identifier` (carrying its name), or
any other type node. -/
inductive TSType where
  | typeRef (name : String)
  | otherType
deriving DecidableEq, Repr

/-- A formal parameter node.  The rule only distinguishes `Identifier`
parameters (with an optional type annotation) from everything else
(destructuring patterns, rest elements, ...), which it ignores. -/
inductive Param where
  | ident (name : String) (typeAnn : Option TSType)
  | pattern
deriving DecidableEq, Repr

/-- The binding position of a `VariableDeclarator` (`node.id`): an
`Identifier` with an optional type annotation, or some other pattern. -/
inductive BindingId where
  | ident (name : String) (typeAnn : Option TSType)
  | pattern
deriving DecidableEq, Repr

mutual
/-- Expression nodes of the ESTree fragment the rule visits.  `member` is a
non-computed member access whose property is an identifier (the only shape
the rule's `.property.name` / `.object` accesses read meaningfully). -/
inductive Expr where
  | ident (name : String)
  | member (obj : Expr) (prop : String)
  | assign (left : Expr) (right : Expr)
  | update (arg : Expr)
  | call (callee : Expr) (args : List Expr)
  | funcExpr (id : Option String) (params : List Param) (body : List Stmt)
  | arrow (params : List Param) (body : ArrowBody)
  | objectLit
  | arrayLit
  | lit
deriving Repr

/-- An arrow function's body: a bare expression or a block. -/
inductive ArrowBody where
  | expr (e : Expr)
  | block (stmts : List Stmt)
deriving Repr

/-- Statement nodes of the fragment. -/
inductive Stmt where
  | funcDecl (id : Option String) (params : List Param) (body : List Stmt)
  | varDecl (decls : List Declarator)
  | exprStmt (e : Expr)
  | ret (e : Option Expr)
  | emptyStmt
deriving Repr

/-- A `VariableDeclarator`: `id` pattern and optional initializer. -/
inductive Declarator where
  | mk (id : BindingId) (init : Option Expr)
deriving Repr
end

/-- A whole source file: the `Program` node's statement list. -/
abbrev Program := List Stmt

/-- Which of the two rule variants `createMutRule` was instantiated with. -/
inductive RuleType where
  | param
  | var
deriving DecidableEq, Repr

/-- JS `s.endsWith(suffix)` on the character sequence. -/
def jsEndsWith (s suffix : String) : Bool :=
  suffix.data.isSuffixOf s.data

/-- `filename.endsWith('.ts') || filename.endsWith('.tsx')` (source line 19). -/
def isTypeScript (filename : String) : Bool :=
  jsEndsWith filename ".ts" || jsEndsWith filename ".tsx"

/-- The fixed list of mutating collection method names (source lines 33/61). -/
def mutatingMethods : List String :=
  ["push", "pop", "shift", "unshift", "splice", "sort", "reverse", "fill"]

/-- `isMutatingOperation` (source lines 28-34): any assignment, any update
expression, or a call whose callee is a member access whose property name is
one of the eight mutating method names. -/
def isMutatingOperation : Expr → Bool
  | Expr.assign _ _ => true
  | Expr.update _ => true
  | Expr.call callee _ =>
    match callee with
    | Expr.member _ prop => mutatingMethods.contains prop
    | _ => false
  | _ => false

/-- `getRootObjectName` (source lines 36-42): walk left while the object is
itself a member expression; return the final object's name when it is an
identifier, else `none` (JS `null`). -/
def getRootObjectName : Expr → Option String
  | Expr.member (Expr.member o p) _ => getRootObjectName (Expr.member o p)
  | Expr.member (Expr.ident n) _ => some n
  | _ => none

/-- `.object.name` of a member expression: defined (non-`undefined`) exactly
when the object is an identifier.  Used for the `|| node.left.object.name`
fallbacks on source lines 46/51. -/
def directObjectName : Expr → Option String
  | Expr.member (Expr.ident n) _ => some n
  | _ => none

/-- `getRootObjectName(m) || m.object.name` (source lines 46, 51, 221, 223):
JS `||` falls through on `null`/`undefined`. -/
def rootOrObjectName (m : Expr) : Option String :=
  (getRootObjectName m).orElse (fun _ => directObjectName m)

/-- `isParameterMutation` (source lines 44-67). -/
def isParameterMutation (node : Expr) (paramNames : List String) : Bool :=
  match node with
  | Expr.assign l _ =>
    match l with
    | Expr.member _ _ =>
      match rootOrObjectName l with
      | some n => paramNames.contains n
      | none => false
    | _ => false
  | Expr.update a =>
    match a with
    | Expr.member _ _ =>
      match rootOrObjectName a with
      | some n => paramNames.contains n
      | none => false
    | _ => false
  | Expr.call callee _ =>
    match callee with
    | Expr.member (Expr.ident objectName) methodName =>
      paramNames.contains objectName && mutatingMethods.contains methodName
    | _ => false
  | _ => false

/-- JS `s.startsWith(pre)` on the character sequence. -/
def jsStartsWith (s pre : String) : Bool :=
  pre.data.isPrefixOf s.data

/-- JS `s.length` (the number of code units; all identifiers involved are
ASCII, where it is the number of characters). -/
def jsLength (s : String) : Nat :=
  s.data.length

/-- The regular expression test `/^mut[A-Z]/.test(s)` (source line 71):
the string starts with `m`, `u`, `t` and then an ASCII uppercase letter. -/
def regexMutUpperTest (s : String) : Bool :=
  match s.data with
  | c0 :: c1 :: c2 :: c3 :: _ =>
    c0 == 'm' && c1 == 'u' && c2 == 't' && decide ('A' ≤ c3 ∧ c3 ≤ 'Z')
  | _ => false

/-- `hasMutPrefix` (source lines 69-72). -/
def hasMutPrefix (paramName : String) : Bool :=
  jsStartsWith paramName "mut" && decide (jsLength paramName > 3) &&
    regexMutUpperTest paramName

/-- The name of an identifier parameter (`param.name`); only ever read on
`Identifier` parameters. -/
def Param.name : Param → String
  | Param.ident n _ => n
  | Param.pattern => ""

/-- `hasMutType` (source lines 74-81): the parameter's type annotation is a
`TSTypeReference` whose type name is `Mut`. -/
def hasMutType : Param → Bool
  | Param.ident _ (some (TSType.typeRef n)) => n == "Mut"
  | _ => false

/-- `hasMutTypeAnnotation` (source lines 83-98) applied to a declarator's
`id`: it has a type annotation that is a `TSTypeReference` whose `typeName`
is an `Identifier` named `Mut`. -/
def hasMutTypeAnnotation : BindingId → Bool
  | BindingId.ident _ (some (TSType.typeRef n)) => n == "Mut"
  | _ => false

/-- `isValidMutableParam` (source lines 100-106); `isTS` is the closure's
`isTypeScript` flag. -/
def isValidMutableParam (isTS : Bool) (param : Param) : Bool :=
  if isTS then hasMutType param else hasMutPrefix param.name

/-- `hasValidMutableMarker` (source lines 108-116) applied to an identifier
argument's name; `mutVars` is the closure's `mutTypeVariables` set. -/
def hasValidMutableMarker (isTS : Bool) (mutVars : List String)
    (argName : String) : Bool :=
  if isTS then mutVars.contains argName || hasMutPrefix argName
  else hasMutPrefix argName

/-- `paramName.charAt(0).toUpperCase() + paramName.slice(1)`. -/
def capFirst (s : String) : String :=
  match s.data with
  | [] => ""
  | c :: rest => String.mk (c.toUpper :: rest)

/-- `getErrorMessage` (source lines 118-132). -/
def getErrorMessage (ruleType : RuleType) (isTS : Bool) (paramName : String)
    (functionName : Option String) : String :=
  match ruleType with
  | RuleType.param =>
    if isTS then
      "Parameter '" ++ paramName ++
        "' is mutated but doesn't have 'Mut<T>' type annotation. " ++
        "Consider changing type to 'Mut<YourType>'."
    else
      "Parameter '" ++ paramName ++
        "' is mutated but doesn't have 'mut' prefix. " ++
        "Consider renaming to 'mut" ++ capFirst paramName ++ "'."
  | RuleType.var =>
    if isTS then
      "Argument '" ++ paramName ++ "' is passed to function '" ++
        (functionName.getD "null") ++
        "' which mutates this parameter. " ++
        "Consider using 'Mut<T>' type annotation or renaming to 'mut" ++
        capFirst paramName ++ "'."
    else
      "Argument '" ++ paramName ++ "' is passed to function '" ++
        (functionName.getD "null") ++
        "' which mutates this parameter. " ++
        "Consider renaming to 'mut" ++ capFirst paramName ++ "'."

/-- The node a violation is reported at (`context.report({node, ...})`):
a parameter declaration node (param rule) or an argument expression
(var rule). -/
inductive RNode where
  | paramNode (p : Param)
  | argNode (e : Expr)
deriving Repr

/-- One reported violation: offending node and message string. -/
structure Violation where
  node : RNode
  message : String
deriving Repr

/-- The per-parameter entry of a scope's `params` map (source lines 176-179). -/
structure ParamInfo where
  node : Param
  isValidMutable : Bool
deriving Repr

/-- One open `FunctionScope` (source line 183): the insertion-ordered `params`
map and the insertion-ordered `mutatedParams` set. -/
structure FuncScope where
  params : List (String × ParamInfo)
  mutatedParams : List String
deriving Repr

/-- One entry of the `functionCalls` array (source lines 148-152). -/
structure CallRecord where
  functionName : String
  arguments : List Expr
deriving Repr

/-- The per-invocation state allocated by `create` (source lines 22-25)
together with the stream of `context.report` calls.  `functionScopes` is not
included here: the open scopes live on the traversal's explicit stack. -/
structure RuleState where
  functionsWithMutatingParams : List (String × List Nat)
  functionCalls : List CallRecord
  mutTypeVariables : List String
  reports : List Violation
deriving Repr

/-- The fresh state `create` allocates on each invocation. -/
def freshState : RuleState :=
  { functionsWithMutatingParams := []
    functionCalls := []
    mutTypeVariables := []
    reports := [] }

/-- JS `Map.set` on an insertion-ordered association list: overwrite in place
if the key is present, else append. -/
def mapSet {α : Type} (m : List (String × α)) (k : String) (v : α) :
    List (String × α) :=
  if m.any (fun p => p.1 == k) then
    m.map (fun p => if p.1 == k then (k, v) else p)
  else m ++ [(k, v)]

/-- JS `Map.get` on an association list. -/
def mapGet {α : Type} (m : List (String × α)) (k : String) : Option α :=
  (m.find? (fun p => p.1 == k)).map (fun p => p.2)

/-- JS `Map.has` on an association list. -/
def mapHas {α : Type} (m : List (String × α)) (k : String) : Bool :=
  m.any (fun p => p.1 == k)

/-- JS `Set.add` on an insertion-ordered list. -/
def setAdd (s : List String) (x : String) : List String :=
  if s.contains x then s else s ++ [x]

/-- The function-enter visitor's parameter collection (source lines 170-183):
only `Identifier` parameters are recorded; `isValidMutable` is computed at
entry for the param rule and fixed `false` for the var rule. -/
def collectParams (ruleType : RuleType) (isTS : Bool) (params : List Param) :
    List (String × ParamInfo) :=
  params.foldl
    (fun m p =>
      match p with
      | Param.ident n _ =>
        mapSet m n
          { node := p
            isValidMutable :=
              if ruleType = RuleType.param then isValidMutableParam isTS p
              else false }
      | Param.pattern => m)
    []

/-- The `mutatedParamName` computation of the mutation visitor (source lines
218-226): per node type, the root name that is recorded as mutated. -/
def mutatedRootName : Expr → Option String
  | Expr.assign l _ =>
    match l with
    | Expr.member _ _ => rootOrObjectName l
    | _ => none
  | Expr.update a =>
    match a with
    | Expr.member _ _ => rootOrObjectName a
    | _ => none
  | Expr.call callee _ =>
    match callee with
    | Expr.member o _ =>
      match o with
      | Expr.ident n => some n
      | _ => none
    | _ => none
  | _ => none

/-- The per-scope body of the mutation visitor's loop over containing
functions (source lines 209-232): if the node is a mutating operation on a
parameter of this scope, add the resolved root name to `mutatedParams`. -/
def applyMutation (node : Expr) (scope : FuncScope) : FuncScope :=
  let paramNames := scope.params.map (fun p => p.1)
  if isMutatingOperation node && isParameterMutation node paramNames then
    match mutatedRootName node with
    | some n =>
      if mapHas scope.params n then
        { scope with mutatedParams := setAdd scope.mutatedParams n }
      else scope
    | none => scope
  else scope

/-- `checkCrossFunctionMutation` (source lines 134-155): for the var rule,
record every call expression whose callee name resolves (a direct identifier,
or the property name of a member access). -/
def checkCrossFunctionMutation (ruleType : RuleType) (node : Expr)
    (s : RuleState) : RuleState :=
  match ruleType, node with
  | RuleType.var, Expr.call callee args =>
    let functionName : Option String :=
      match callee with
      | Expr.ident n => some n
      | Expr.member _ p => some p
      | _ => none
    match functionName with
    | some n =>
      { s with functionCalls :=
          s.functionCalls ++ [{ functionName := n, arguments := args }] }
    | none => s
  | _, _ => s

/-- The param-rule half of the function-exit visitor (source lines 241-251):
one report per mutated parameter whose `isValidMutable` is false, in
`mutatedParams` insertion order, referencing the parameter's node. -/
def paramRuleExitReports (isTS : Bool) (scope : FuncScope) : List Violation :=
  scope.mutatedParams.foldl
    (fun acc paramName =>
      match mapGet scope.params paramName with
      | some info =>
        if !info.isValidMutable then
          acc ++ [{ node := RNode.paramNode info.node
                    message := getErrorMessage RuleType.param isTS paramName none }]
        else acc
      | none => acc)
    []

/-- The index collection of the var-rule half of the function-exit visitor
(source lines 272-277): positions of `Identifier` parameters whose name is in
`mutatedParams`, in parameter order. -/
def mutatingIndices (params : List Param) (mutated : List String) : List Nat :=
  (params.enum).foldl
    (fun acc ip =>
      match ip.2 with
      | Param.ident n _ => if mutated.contains n then acc ++ [ip.1] else acc
      | Param.pattern => acc)
    []

/-- The whole function-exit visitor (source lines 236-287), applied to the
scope popped for the exited function.  `functionName` is the name resolved on
source lines 255-269 (declaration/expression `id`, or the enclosing
declarator's identifier for an arrow function). -/
def functionExit (ruleType : RuleType) (isTS : Bool)
    (functionName : Option String) (astParams : List Param)
    (scope : FuncScope) (s : RuleState) : RuleState :=
  let s :=
    if ruleType = RuleType.param then
      { s with reports := s.reports ++ paramRuleExitReports isTS scope }
    else s
  if ruleType = RuleType.var && !scope.mutatedParams.isEmpty then
    match functionName with
    | some fname =>
      let mutatingParamIndices := mutatingIndices astParams scope.mutatedParams
      if !mutatingParamIndices.isEmpty then
        { s with functionsWithMutatingParams :=
            mapSet s.functionsWithMutatingParams fname mutatingParamIndices }
      else s
    | none => s
  else s

/-- The `Program:exit` visitor of the var rule (source lines 291-317). -/
def programExitReports (isTS : Bool) (s : RuleState) : List Violation :=
  s.functionCalls.foldl
    (fun acc call =>
      match mapGet s.functionsWithMutatingParams call.functionName with
      | some mutParamIndices =>
        mutParamIndices.foldl
          (fun acc2 paramIndex =>
            match call.arguments.get? paramIndex with
            | some argument =>
              match argument with
              | Expr.ident argName =>
                if !hasValidMutableMarker isTS s.mutTypeVariables argName then
                  acc2 ++ [{ node := RNode.argNode (Expr.ident argName)
                             message := getErrorMessage RuleType.var isTS
                               argName (some call.functionName) }]
                else acc2
              | _ => acc2
            | none => acc2)
          acc
      | none => acc)
    []

/-- The `VariableDeclarator` enter visitor (source lines 159-166). -/
def visitDeclaratorEnter (ruleType : RuleType) (isTS : Bool)
    (id : BindingId) (s : RuleState) : RuleState :=
  if ruleType = RuleType.var && isTS && hasMutTypeAnnotation id then
    match id with
    | BindingId.ident n _ =>
      { s with mutTypeVariables := setAdd s.mutTypeVariables n }
    | BindingId.pattern => s
  else s

mutual
/-- Depth-first visit of an expression, firing the rule's enter/exit visitors
in ESLint's document order.  `stack` holds the open `FunctionScope`s,
innermost first (the explicit form of `functionScopes` restricted to the
node's ancestors, which are exactly the open scopes a node's parent-chain
walk finds).  `declName` is the enclosing `VariableDeclarator`'s identifier
when `e` is directly a declarator's initializer (used to name arrow
functions at their exit, source lines 261-269). -/
def visitExpr (ruleType : RuleType) (isTS : Bool) (declName : Option String)
    (e : Expr) (stack : List FuncScope) (s : RuleState) :
    List FuncScope × RuleState :=
  match e with
  | Expr.ident _ => (stack, s)
  | Expr.objectLit => (stack, s)
  | Expr.arrayLit => (stack, s)
  | Expr.lit => (stack, s)
  | Expr.member o _ => visitExpr ruleType isTS none o stack s
  | Expr.assign l r =>
    let s1 := checkCrossFunctionMutation ruleType (Expr.assign l r) s
    let stack1 := stack.map (applyMutation (Expr.assign l r))
    let sr1 := visitExpr ruleType isTS none l stack1 s1
    visitExpr ruleType isTS none r sr1.1 sr1.2
  | Expr.update a =>
    let s1 := checkCrossFunctionMutation ruleType (Expr.update a) s
    let stack1 := stack.map (applyMutation (Expr.update a))
    visitExpr ruleType isTS none a stack1 s1
  | Expr.call callee args =>
    let s1 := checkCrossFunctionMutation ruleType (Expr.call callee args) s
    let stack1 := stack.map (applyMutation (Expr.call callee args))
    let sr1 := visitExpr ruleType isTS none callee stack1 s1
    visitExprs ruleType isTS args sr1.1 sr1.2
  | Expr.funcExpr id params body =>
    let scope : FuncScope :=
      { params := collectParams ruleType isTS params, mutatedParams := [] }
    let sr := visitStmts ruleType isTS body (scope :: stack) s
    match sr.1 with
    | scope2 :: rest => (rest, functionExit ruleType isTS id params scope2 sr.2)
    | [] => ([], sr.2)
  | Expr.arrow params body =>
    let scope : FuncScope :=
      { params := collectParams ruleType isTS params, mutatedParams := [] }
    let sr := visitArrowBody ruleType isTS body (scope :: stack) s
    match sr.1 with
    | scope2 :: rest =>
      (rest, functionExit ruleType isTS declName params scope2 sr.2)
    | [] => ([], sr.2)

/-- Visit a list of expressions left to right. -/
def visitExprs (ruleType : RuleType) (isTS : Bool) (es : List Expr)
    (stack : List FuncScope) (s : RuleState) : List FuncScope × RuleState :=
  match es with
  | [] => (stack, s)
  | e :: rest =>
    let sr := visitExpr ruleType isTS none e stack s
    visitExprs ruleType isTS rest sr.1 sr.2

/-- Visit an arrow function's body (expression body or block). -/
def visitArrowBody (ruleType : RuleType) (isTS : Bool) (b : ArrowBody)
    (stack : List FuncScope) (s : RuleState) : List FuncScope × RuleState :=
  match b with
  | ArrowBody.expr e => visitExpr ruleType isTS none e stack s
  | ArrowBody.block stmts => visitStmts ruleType isTS stmts stack s

/-- Visit one statement. -/
def visitStmt (ruleType : RuleType) (isTS : Bool) (st : Stmt)
    (stack : List FuncScope) (s : RuleState) : List FuncScope × RuleState :=
  match st with
  | Stmt.funcDecl id params body =>
    let scope : FuncScope :=
      { params := collectParams ruleType isTS params, mutatedParams := [] }
    let sr := visitStmts ruleType isTS body (scope :: stack) s
    match sr.1 with
    | scope2 :: rest => (rest, functionExit ruleType isTS id params scope2 sr.2)
    | [] => ([], sr.2)
  | Stmt.varDecl decls => visitDecls ruleType isTS decls stack s
  | Stmt.exprStmt e => visitExpr ruleType isTS none e stack s
  | Stmt.ret oe =>
    match oe with
    | some e => visitExpr ruleType isTS none e stack s
    | none => (stack, s)
  | Stmt.emptyStmt => (stack, s)

/-- Visit a statement list in order. -/
def visitStmts (ruleType : RuleType) (isTS : Bool) (sts : List Stmt)
    (stack : List FuncScope) (s : RuleState) : List FuncScope × RuleState :=
  match sts with
  | [] => (stack, s)
  | st :: rest =>
    let sr := visitStmt ruleType isTS st stack s
    visitStmts ruleType isTS rest sr.1 sr.2

/-- Visit one declarator: fire the `VariableDeclarator` enter visitor, then
visit the initializer, passing the declarator's identifier down so an arrow
initializer can be named at its exit. -/
def visitDecl (ruleType : RuleType) (isTS : Bool) (d : Declarator)
    (stack : List FuncScope) (s : RuleState) : List FuncScope × RuleState :=
  match d with
  | Declarator.mk id init =>
    let s1 := visitDeclaratorEnter ruleType isTS id s
    match init with
    | some e =>
      let declName : Option String :=
        match id with
        | BindingId.ident n _ => some n
        | BindingId.pattern => none
      visitExpr ruleType isTS declName e stack s1
    | none => (stack, s1)

/-- Visit a declarator list in order. -/
def visitDecls (ruleType : RuleType) (isTS : Bool) (ds : List Declarator)
    (stack : List FuncScope) (s : RuleState) : List FuncScope × RuleState :=
  match ds with
  | [] => (stack, s)
  | d :: rest =>
    let sr := visitDecl ruleType isTS d stack s
    visitDecls ruleType isTS rest sr.1 sr.2
end

/-- One whole invocation of the rule on one file: `create` allocates fresh
state (source lines 16-25), the host walks the program firing the visitors,
and for the var rule the `Program:exit` visitor finally resolves the recorded
calls.  The result is the ordered list of `context.report` calls. -/
def runRule (ruleType : RuleType) (filename : String) (program : Program) :
    List Violation :=
  let isTS := isTypeScript filename
  let sr := visitStmts ruleType isTS program [] freshState
  if ruleType = RuleType.var then
    sr.2.reports ++ programExitReports isTS sr.2
  else
    sr.2.reports

/-! Program families and helper notions used to state the claims. -/

/-- Build the member chain `base.p1.p2...pn` by folding left. -/
def mkChain (base : Expr) (props : List String) : Expr :=
  props.foldl Expr.member base

/-- The name at the base of a member chain, walking left: the reference
notion the chain-walk of `getRootObjectName` is compared against. -/
def chainBaseName : Expr → Option String
  | Expr.ident n => some n
  | Expr.member o _ => chainBaseName o
  | _ => none

/-- Modelled from the spec (§3 MutableMarker, untyped dialect): the
identifier's text begins with the literal characters `mut` immediately
followed by an ASCII uppercase letter (hence at least 4 characters). -/
def specMutMarker (s : String) : Prop :=
  ∃ c rest, s.data = 'm' :: 'u' :: 't' :: c :: rest ∧ 'A' ≤ c ∧ c ≤ 'Z'

/-- `function f(a<ta>){ a.x = <lit>; }`. -/
def mutatingFunctionDeclTyped (f a : String) (ta : Option TSType) : Stmt :=
  Stmt.funcDecl (some f) [Param.ident a ta]
    [Stmt.exprStmt (Expr.assign (Expr.member (Expr.ident a) "x") Expr.lit)]

/-- `function f(a){ a.x = <lit>; }`. -/
def mutatingFunctionDecl (f a : String) : Stmt :=
  mutatingFunctionDeclTyped f a none

/-- `function f(a){ a.x = <lit>; }  f(<arg>);`. -/
def progCallAfterDecl (f a : String) (arg : Expr) : Program :=
  [mutatingFunctionDecl f a, Stmt.exprStmt (Expr.call (Expr.ident f) [arg])]

/-- `f(<arg>);  function f(a){ a.x = <lit>; }` (forward reference). -/
def progCallBeforeDecl (f a : String) (arg : Expr) : Program :=
  [Stmt.exprStmt (Expr.call (Expr.ident f) [arg]), mutatingFunctionDecl f a]

/-- `function g(x){ x.<m>(); }`. -/
def progMethodCall (g x m : String) : Program :=
  [Stmt.funcDecl (some g) [Param.ident x none]
    [Stmt.exprStmt (Expr.call (Expr.member (Expr.ident x) m) [])]]

/-- `const f = function(a){ a.x = <lit>; };  f(b);` — an anonymous function
expression assigned directly to a simple identifier at declaration time. -/
def progAnonFuncExprAssigned (f a b : String) : Program :=
  [Stmt.varDecl [Declarator.mk (BindingId.ident f none)
      (some (Expr.funcExpr none [Param.ident a none]
        [Stmt.exprStmt (Expr.assign (Expr.member (Expr.ident a) "x") Expr.lit)]))],
   Stmt.exprStmt (Expr.call (Expr.ident f) [Expr.ident b])]

/-- `const f = function g(a){ a.x = <lit>; };  g(b);` — a named function
expression; the rule keys the profile by the expression's own name. -/
def progNamedFuncExprAssigned (f g a b : String) : Program :=
  [Stmt.varDecl [Declarator.mk (BindingId.ident f none)
      (some (Expr.funcExpr (some g) [Param.ident a none]
        [Stmt.exprStmt (Expr.assign (Expr.member (Expr.ident a) "x") Expr.lit)]))],
   Stmt.exprStmt (Expr.call (Expr.ident g) [Expr.ident b])]

/-- `const f = (a) => { a.x = <lit>; };  f(b);` — an arrow function assigned
directly to a simple identifier at declaration time. -/
def progArrowAssigned (f a b : String) : Program :=
  [Stmt.varDecl [Declarator.mk (BindingId.ident f none)
      (some (Expr.arrow [Param.ident a none]
        (ArrowBody.block
          [Stmt.exprStmt (Expr.assign (Expr.member (Expr.ident a) "x") Expr.lit)])))],
   Stmt.exprStmt (Expr.call (Expr.ident f) [Expr.ident b])]

/-- `function f(a, b){ a.p = <lit>; b.q = <lit>; }  f(x, y);` — both
parameters mutated, to observe the ordered positions of the profile. -/
def progTwoMutated (f x y : String) : Program :=
  [Stmt.funcDecl (some f) [Param.ident "a" none, Param.ident "b" none]
    [Stmt.exprStmt (Expr.assign (Expr.member (Expr.ident "a") "p") Expr.lit),
     Stmt.exprStmt (Expr.assign (Expr.member (Expr.ident "b") "q") Expr.lit)],
   Stmt.exprStmt (Expr.call (Expr.ident f) [Expr.ident x, Expr.ident y])]

/-- Two function declarations sharing the name `f` — the first mutates its
parameter at position 0, the second the one at position 1 — with a call
`f(x, y)` before both and one after both. -/
def progSharedName (f x y : String) : Program :=
  [Stmt.exprStmt (Expr.call (Expr.ident f) [Expr.ident x, Expr.ident y]),
   Stmt.funcDecl (some f) [Param.ident "a" none, Param.ident "b" none]
    [Stmt.exprStmt (Expr.assign (Expr.member (Expr.ident "a") "p") Expr.lit)],
   Stmt.funcDecl (some f) [Param.ident "c" none, Param.ident "d" none]
    [Stmt.exprStmt (Expr.assign (Expr.member (Expr.ident "d") "p") Expr.lit)],
   Stmt.exprStmt (Expr.call (Expr.ident f) [Expr.ident x, Expr.ident y])]

/-- `const b<bTy> = {};  function f(a: Mut<T>){ a.x = <lit>; }  f(b);` — the
typed-dialect variable-marker scenarios. -/
def progTypedVarCall (f a b : String) (bTy : Option TSType) : Program :=
  [Stmt.varDecl [Declarator.mk (BindingId.ident b bTy) (some Expr.objectLit)],
   mutatingFunctionDeclTyped f a (some (TSType.typeRef "Mut")),
   Stmt.exprStmt (Expr.call (Expr.ident f) [Expr.ident b])]

/-- The var-rule violation reported for argument `argName` passed to
`fname`. -/
def argViolation (isTS : Bool) (argName fname : String) : Violation :=
  { node := RNode.argNode (Expr.ident argName)
    message := getErrorMessage RuleType.var isTS argName (some fname) }

/-- The param-rule violation reported for parameter node `p` under name
`n`. -/
def paramViolation (isTS : Bool) (n : String) (p : Param) : Violation :=
  { node := RNode.paramNode p
    message := getErrorMessage RuleType.param isTS n none }

/-- A sequence of independent invocations of the rule, one per file: each
invocation allocates its state afresh (`create`, source lines 16-25). -/
def runBatch (ruleType : RuleType) (files : List (String × Program)) :
    List (List Violation) :=
  files.map (fun fp => runRule ruleType fp.1 fp.2)

/-- The four violation kinds of `getErrorMessage`: rule variant × dialect. -/
def violationKinds : List (RuleType × Bool) :=
  [(RuleType.param, false), (RuleType.param, true),
   (RuleType.var, false), (RuleType.var, true)]

/-- The root name the mutation visitor records for a single node: the
combination of `isMutatingOperation`, `isParameterMutation` and the
`mutatedParamName` computation, before the scope's parameter check.  `some n`
exactly when visiting the node adds `n` to every open scope that declares a
parameter `n`. -/
def nodeMutRoot : Expr → Option String
  | Expr.assign l _ =>
    match l with
    | Expr.member _ _ => rootOrObjectName l
    | _ => none
  | Expr.update a =>
    match a with
    | Expr.member _ _ => rootOrObjectName a
    | _ => none
  | Expr.call callee _ =>
    match callee with
    | Expr.member (Expr.ident n) m =>
      if mutatingMethods.contains m then some n else none
    | _ => none
  | _ => none

mutual
/-- All roots of attributable mutation operations in an expression's
subtree, nested function bodies included (the mutation visitor attributes a
node to every open enclosing scope that declares the root). -/
def mutRootsExpr : Expr → List String
  | Expr.ident _ => []
  | Expr.member o _ => mutRootsExpr o
  | Expr.assign l r =>
    (nodeMutRoot (Expr.assign l r)).toList ++ mutRootsExpr l ++ mutRootsExpr r
  | Expr.update a => (nodeMutRoot (Expr.update a)).toList ++ mutRootsExpr a
  | Expr.call c as =>
    (nodeMutRoot (Expr.call c as)).toList ++ mutRootsExpr c ++ mutRootsExprs as
  | Expr.funcExpr _ _ body => mutRootsStmts body
  | Expr.arrow _ b => mutRootsArrowBody b
  | Expr.objectLit => []
  | Expr.arrayLit => []
  | Expr.lit => []

/-- Roots in a list of expressions. -/
def mutRootsExprs : List Expr → List String
  | [] => []
  | e :: rest => mutRootsExpr e ++ mutRootsExprs rest

/-- Roots in an arrow function body. -/
def mutRootsArrowBody : ArrowBody → List String
  | ArrowBody.expr e => mutRootsExpr e
  | ArrowBody.block sts => mutRootsStmts sts

/-- Roots in a statement. -/
def mutRootsStmt : Stmt → List String
  | Stmt.funcDecl _ _ body => mutRootsStmts body
  | Stmt.varDecl ds => mutRootsDecls ds
  | Stmt.exprStmt e => mutRootsExpr e
  | Stmt.ret oe =>
    match oe with
    | some e => mutRootsExpr e
    | none => []
  | Stmt.emptyStmt => []

/-- Roots in a list of statements. -/
def mutRootsStmts : List Stmt → List String
  | [] => []
  | st :: rest => mutRootsStmt st ++ mutRootsStmts rest

/-- Roots in a declarator. -/
def mutRootsDecl : Declarator → List String
  | Declarator.mk _ oe =>
    match oe with
    | some e => mutRootsExpr e
    | none => []

/-- Roots in a list of declarators. -/
def mutRootsDecls : List Declarator → List String
  | [] => []
  | d :: rest => mutRootsDecl d ++ mutRootsDecls rest
end

/-! Helper lemmas shared by the claim theorems. -/

theorem chainBaseName_member (o : Expr) (p : String) :
    getRootObjectName (Expr.member o p) = chainBaseName o :=
  match o with
  | Expr.member o' p' => by
    rw [show getRootObjectName (Expr.member (Expr.member o' p') p) =
        getRootObjectName (Expr.member o' p') from rfl,
      chainBaseName_member o' p', chainBaseName]
  | Expr.ident _ => rfl
  | Expr.assign _ _ => rfl
  | Expr.update _ => rfl
  | Expr.call _ _ => rfl
  | Expr.funcExpr _ _ _ => rfl
  | Expr.arrow _ _ => rfl
  | Expr.objectLit => rfl
  | Expr.arrayLit => rfl
  | Expr.lit => rfl

theorem chainBaseName_mkChain (base : Expr) (props : List String) :
    chainBaseName (mkChain base props) = chainBaseName base := by
  induction props generalizing base with
  | nil => rfl
  | cons p ps ih =>
    rw [show mkChain base (p :: ps) = mkChain (Expr.member base p) ps from rfl, ih,
      chainBaseName]

theorem mkChain_isMember (base : Expr) (p : String) (ps : List String) :
    ∃ o q, mkChain base (p :: ps) = Expr.member o q := by
  induction ps generalizing base p with
  | nil => exact ⟨base, p, rfl⟩
  | cons p' ps' ih => exact ih (Expr.member base p) p'

theorem mkChain_member_cons (b : Expr) (q p : String) (ps : List String) :
    ∃ x y z, mkChain (Expr.member b q) (p :: ps) = Expr.member (Expr.member x y) z := by
  induction ps generalizing b q p with
  | nil => exact ⟨b, q, p, rfl⟩
  | cons p' ps' ih => exact ih (Expr.member b q) p p'

theorem rootOrObjectName_member (o : Expr) (q : String) :
    rootOrObjectName (Expr.member o q) = chainBaseName o := by
  unfold rootOrObjectName
  rw [chainBaseName_member]
  match o with
  | Expr.ident n => rfl
  | Expr.member o' p' =>
    cases h : chainBaseName (Expr.member o' p') with
    | some n => rfl
    | none => simp [Option.orElse, directObjectName]
  | Expr.assign _ _ => rfl
  | Expr.update _ => rfl
  | Expr.call _ _ => rfl
  | Expr.funcExpr _ _ _ => rfl
  | Expr.arrow _ _ => rfl
  | Expr.objectLit => rfl
  | Expr.arrayLit => rfl
  | Expr.lit => rfl

theorem hasMutPrefix_iff_aux (s : String) : hasMutPrefix s = true ↔ specMutMarker s := by
  obtain ⟨l⟩ := s
  unfold hasMutPrefix specMutMarker jsStartsWith jsLength regexMutUpperTest
  match l with
  | [] => simp [List.isPrefixOf]
  | [c0] => simp [List.isPrefixOf]
  | [c0, c1] => simp [List.isPrefixOf]
  | [c0, c1, c2] => simp [List.isPrefixOf]
  | c0 :: c1 :: c2 :: c3 :: rest =>
    simp only [List.isPrefixOf, Bool.and_eq_true, beq_iff_eq, decide_eq_true_eq,
      List.length_cons, String.data]
    constructor
    · rintro ⟨⟨⟨h0, h1, h2, -⟩, -⟩, -, hA, hZ⟩
      exact ⟨c3, rest, by rw [← h0, ← h1, ← h2], hA, hZ⟩
    · rintro ⟨c, r, heq, hA, hZ⟩
      simp only [List.cons.injEq] at heq
      obtain ⟨h0, h1, h2, h3, -⟩ := heq
      subst h0; subst h1; subst h2; subst h3
      refine ⟨⟨⟨rfl, rfl, rfl, trivial⟩, by omega⟩, ⟨⟨rfl, rfl⟩, rfl⟩, hA, hZ⟩

theorem hasMutPrefix_length_aux (s : String) (h : hasMutPrefix s = true) :
    4 ≤ jsLength s := by
  obtain ⟨c, rest, hd, -⟩ := (hasMutPrefix_iff_aux s).mp h
  unfold jsLength
  rw [hd]
  simp

/-! The claim theorems. -/

/-- C3: marker-prefix validity is a total function of the raw identifier
text: `hasMutPrefix` holds iff the text begins with the literal characters
`mut` immediately followed by an ASCII uppercase letter (hence at least 4
characters); `mutFoo` passes while `mutfoo`, `Mutfoo`, `mut_foo` and the
bare `mut` all fail. -/
theorem claim_marker_prefix_validity (s : String) :
    (hasMutPrefix s = true ↔ specMutMarker s) ∧
    (hasMutPrefix s = true → 4 ≤ jsLength s) ∧
    hasMutPrefix "mutFoo" = true ∧
    hasMutPrefix "mutfoo" = false ∧
    hasMutPrefix "Mutfoo" = false ∧
    hasMutPrefix "mut_foo" = false ∧
    hasMutPrefix "mut" = false :=
  ⟨hasMutPrefix_iff_aux s, hasMutPrefix_length_aux s,
   by decide, by decide, by decide, by decide, by decide⟩

theorem isParameterMutation_assign_member (o : Expr) (q : String) (rhs : Expr)
    (S : List String) :
    isParameterMutation (Expr.assign (Expr.member o q) rhs) S
      = ((chainBaseName o).map S.contains).getD false := by
  simp only [isParameterMutation]
  rw [rootOrObjectName_member]
  cases chainBaseName o <;> rfl

theorem isParameterMutation_update_member (o : Expr) (q : String)
    (S : List String) :
    isParameterMutation (Expr.update (Expr.member o q)) S
      = ((chainBaseName o).map S.contains).getD false := by
  simp only [isParameterMutation]
  rw [rootOrObjectName_member]
  cases chainBaseName o <;> rfl

/-- C5: root resolution is asymmetric between operation kinds: property
writes and increment/decrement walk the member chain to its base and resolve
the root there (no site when the base is not a simple identifier), while a
mutating collection call qualifies only when the call is directly on a
simple identifier: a deeper chain such as `a.b.push()` is never a mutation
of `a`, while `a.push()` is one exactly when `push` is one of the eight
method names and `a` is a parameter. -/
theorem claim_root_resolution_asymmetry
    (a m p p2 : String) (props : List String) (S : List String)
    (rhs : Expr) (args : List Expr) (base : Expr)
    (hbase : chainBaseName base = none) :
    (isParameterMutation (Expr.assign (mkChain (Expr.ident a) (p :: props)) rhs) S
        = S.contains a) ∧
    (isParameterMutation (Expr.update (mkChain (Expr.ident a) (p :: props))) S
        = S.contains a) ∧
    (isParameterMutation (Expr.assign (mkChain base (p :: props)) rhs) S = false) ∧
    (isParameterMutation (Expr.update (mkChain base (p :: props))) S = false) ∧
    (isParameterMutation (Expr.call (mkChain (Expr.ident a) (p :: p2 :: props)) args) S
        = false) ∧
    (isParameterMutation (Expr.call (Expr.member (Expr.ident a) m) args) S
        = (S.contains a && mutatingMethods.contains m)) := by
  have hroot : chainBaseName (mkChain (Expr.ident a) (p :: props)) = some a :=
    chainBaseName_mkChain (Expr.ident a) (p :: props)
  have hnone : chainBaseName (mkChain base (p :: props)) = none := by
    rw [chainBaseName_mkChain]; exact hbase
  obtain ⟨o, q, hM⟩ := mkChain_isMember (Expr.ident a) p props
  obtain ⟨o', q', hM'⟩ := mkChain_isMember base p props
  have ho : chainBaseName o = some a := by
    rw [hM] at hroot; exact hroot
  have ho' : chainBaseName o' = none := by
    rw [hM'] at hnone; exact hnone
  refine ⟨?_, ?_, ?_, ?_, ?_, ?_⟩
  · rw [hM, isParameterMutation_assign_member, ho]; rfl
  · rw [hM, isParameterMutation_update_member, ho]; rfl
  · rw [hM', isParameterMutation_assign_member, ho']; rfl
  · rw [hM', isParameterMutation_update_member, ho']; rfl
  · obtain ⟨x, y, z, hC⟩ := mkChain_member_cons (Expr.ident a) p p2 props
    rw [show mkChain (Expr.ident a) (p :: p2 :: props)
        = mkChain (Expr.member (Expr.ident a) p) (p2 :: props) from rfl, hC]
    rfl
  · rfl

/-- Witness for C5 at concrete inputs: chain `a.b.d`, call chains `a.b.c.d`,
base `g()`. -/
theorem claim_root_resolution_asymmetry_witness :
    chainBaseName (Expr.call (Expr.ident "g") []) = none ∧
    ((isParameterMutation
        (Expr.assign (mkChain (Expr.ident "a") ("b" :: ["d"])) Expr.lit) ["a"]
        = List.contains ["a"] "a") ∧
    (isParameterMutation
        (Expr.update (mkChain (Expr.ident "a") ("b" :: ["d"]))) ["a"]
        = List.contains ["a"] "a") ∧
    (isParameterMutation
        (Expr.assign (mkChain (Expr.call (Expr.ident "g") []) ("b" :: ["d"])) Expr.lit)
        ["a"] = false) ∧
    (isParameterMutation
        (Expr.update (mkChain (Expr.call (Expr.ident "g") []) ("b" :: ["d"]))) ["a"]
        = false) ∧
    (isParameterMutation
        (Expr.call (mkChain (Expr.ident "a") ("b" :: "c" :: ["d"])) []) ["a"]
        = false) ∧
    (isParameterMutation (Expr.call (Expr.member (Expr.ident "a") "push") []) ["a"]
        = (List.contains ["a"] "a" && mutatingMethods.contains "push"))) :=
  ⟨rfl, claim_root_resolution_asymmetry "a" "push" "b" "c" ["d"] ["a"]
    Expr.lit [] (Expr.call (Expr.ident "g") []) rfl⟩

/-- C2: the set of method names classified as mutating collection calls is
exactly {push, pop, shift, unshift, splice, sort, reverse, fill}: a call to
one of them directly on a parameter identifier is a parameter mutation, and
for `function g(x){ x.m() }` in a JS file the param rule reports the
unmarked parameter `x` exactly when `m` is one of the eight — any other
method name (map, filter, slice, reduce, concat, ...) never yields a
violation. -/
theorem claim_mutating_method_set (g x m : String) (hx : hasMutPrefix x = false) :
    mutatingMethods
        = ["push", "pop", "shift", "unshift", "splice", "sort", "reverse", "fill"] ∧
    (∀ (S : List String) (args : List Expr),
      isParameterMutation (Expr.call (Expr.member (Expr.ident x) m) args) S
        = (S.contains x && mutatingMethods.contains m)) ∧
    runRule RuleType.param "file.js" (progMethodCall g x m)
      = (if mutatingMethods.contains m then
          [paramViolation false x (Param.ident x none)]
        else []) := by
  refine ⟨rfl, fun S args => rfl, ?_⟩
  by_cases hm : m ∈ mutatingMethods
  · simp [runRule, visitStmts, visitStmt, visitExpr, visitExprs, progMethodCall,
      collectParams, mapSet, mapGet, mapHas, checkCrossFunctionMutation, applyMutation,
      isMutatingOperation, isParameterMutation, rootOrObjectName, getRootObjectName,
      directObjectName, mutatedRootName, setAdd, functionExit, paramRuleExitReports,
      mutatingIndices, programExitReports, freshState, isTypeScript, jsEndsWith,
      isValidMutableParam, Param.name, paramViolation, hm, hx,
      List.isSuffixOf, List.isPrefixOf]
  · simp [runRule, visitStmts, visitStmt, visitExpr, visitExprs, progMethodCall,
      collectParams, mapSet, mapGet, mapHas, checkCrossFunctionMutation, applyMutation,
      isMutatingOperation, isParameterMutation, rootOrObjectName, getRootObjectName,
      directObjectName, mutatedRootName, setAdd, functionExit, paramRuleExitReports,
      mutatingIndices, programExitReports, freshState, isTypeScript, jsEndsWith,
      isValidMutableParam, Param.name, paramViolation, hm, hx,
      List.isSuffixOf, List.isPrefixOf]

/-- Witness for C2 at concrete inputs: `push` flags the unmarked parameter,
and the non-mutating methods map, filter, slice, reduce, concat do not. -/
theorem claim_mutating_method_set_witness :
    hasMutPrefix "x" = false ∧
    (runRule RuleType.param "file.js" (progMethodCall "g" "x" "push")
      = (if mutatingMethods.contains "push" then
          [paramViolation false "x" (Param.ident "x" none)]
        else [])) ∧
    (runRule RuleType.param "file.js" (progMethodCall "g" "x" "map")
      = (if mutatingMethods.contains "map" then
          [paramViolation false "x" (Param.ident "x" none)]
        else [])) ∧
    (runRule RuleType.param "file.js" (progMethodCall "g" "x" "filter")
      = (if mutatingMethods.contains "filter" then
          [paramViolation false "x" (Param.ident "x" none)]
        else [])) ∧
    (runRule RuleType.param "file.js" (progMethodCall "g" "x" "slice")
      = (if mutatingMethods.contains "slice" then
          [paramViolation false "x" (Param.ident "x" none)]
        else [])) ∧
    (runRule RuleType.param "file.js" (progMethodCall "g" "x" "reduce")
      = (if mutatingMethods.contains "reduce" then
          [paramViolation false "x" (Param.ident "x" none)]
        else [])) ∧
    (runRule RuleType.param "file.js" (progMethodCall "g" "x" "concat")
      = (if mutatingMethods.contains "concat" then
          [paramViolation false "x" (Param.ident "x" none)]
        else [])) :=
  ⟨by decide,
   (claim_mutating_method_set "g" "x" "push" (by decide)).2.2,
   (claim_mutating_method_set "g" "x" "map" (by decide)).2.2,
   (claim_mutating_method_set "g" "x" "filter" (by decide)).2.2,
   (claim_mutating_method_set "g" "x" "slice" (by decide)).2.2,
   (claim_mutating_method_set "g" "x" "reduce" (by decide)).2.2,
   (claim_mutating_method_set "g" "x" "concat" (by decide)).2.2⟩

/-- C1: cross-function propagation: with `function f(mutA){ mutA.x = 1 }` and
a call `f(b)` whose argument is an unmarked simple identifier, exactly one
violation is emitted at program exit naming both the argument and the
function; a marked argument `f(mutB)` yields none; non-identifier arguments
(literals, object/array literals, nested calls) are never flagged; and the
declaration may appear after the call (resolution happens only at program
exit). -/
theorem claim_cross_function_propagation
    (f a b mB g : String)
    (ha : hasMutPrefix a = true) (hb : hasMutPrefix b = false)
    (hmB : hasMutPrefix mB = true) :
    runRule RuleType.var "file.js" (progCallAfterDecl f a (Expr.ident b))
        = [argViolation false b f] ∧
    runRule RuleType.var "file.js" (progCallBeforeDecl f a (Expr.ident b))
        = [argViolation false b f] ∧
    runRule RuleType.var "file.js" (progCallAfterDecl f a (Expr.ident mB)) = [] ∧
    runRule RuleType.var "file.js" (progCallAfterDecl f a Expr.lit) = [] ∧
    runRule RuleType.var "file.js" (progCallAfterDecl f a Expr.objectLit) = [] ∧
    runRule RuleType.var "file.js" (progCallAfterDecl f a Expr.arrayLit) = [] ∧
    runRule RuleType.var "file.js"
        (progCallAfterDecl f a (Expr.call (Expr.ident g) [])) = [] := by
  refine ⟨?_, ?_, ?_, ?_, ?_, ?_, ?_⟩
  · simp [runRule, visitStmts, visitStmt, visitExpr, visitExprs,
      progCallAfterDecl, progCallBeforeDecl, mutatingFunctionDecl,
      mutatingFunctionDeclTyped, collectParams, mapSet, mapGet, mapHas,
      checkCrossFunctionMutation, applyMutation, isMutatingOperation,
      isParameterMutation, rootOrObjectName, getRootObjectName, directObjectName,
      mutatedRootName, setAdd, functionExit, paramRuleExitReports,
      mutatingIndices, programExitReports, freshState, isTypeScript, jsEndsWith,
      hasValidMutableMarker, argViolation, hb, hmB,
      List.isSuffixOf, List.isPrefixOf]
  · simp [runRule, visitStmts, visitStmt, visitExpr, visitExprs,
      progCallAfterDecl, progCallBeforeDecl, mutatingFunctionDecl,
      mutatingFunctionDeclTyped, collectParams, mapSet, mapGet, mapHas,
      checkCrossFunctionMutation, applyMutation, isMutatingOperation,
      isParameterMutation, rootOrObjectName, getRootObjectName, directObjectName,
      mutatedRootName, setAdd, functionExit, paramRuleExitReports,
      mutatingIndices, programExitReports, freshState, isTypeScript, jsEndsWith,
      hasValidMutableMarker, argViolation, hb, hmB,
      List.isSuffixOf, List.isPrefixOf]
  · simp [runRule, visitStmts, visitStmt, visitExpr, visitExprs,
      progCallAfterDecl, progCallBeforeDecl, mutatingFunctionDecl,
      mutatingFunctionDeclTyped, collectParams, mapSet, mapGet, mapHas,
      checkCrossFunctionMutation, applyMutation, isMutatingOperation,
      isParameterMutation, rootOrObjectName, getRootObjectName, directObjectName,
      mutatedRootName, setAdd, functionExit, paramRuleExitReports,
      mutatingIndices, programExitReports, freshState, isTypeScript, jsEndsWith,
      hasValidMutableMarker, argViolation, hb, hmB,
      List.isSuffixOf, List.isPrefixOf]
  · simp [runRule, visitStmts, visitStmt, visitExpr, visitExprs,
      progCallAfterDecl, progCallBeforeDecl, mutatingFunctionDecl,
      mutatingFunctionDeclTyped, collectParams, mapSet, mapGet, mapHas,
      checkCrossFunctionMutation, applyMutation, isMutatingOperation,
      isParameterMutation, rootOrObjectName, getRootObjectName, directObjectName,
      mutatedRootName, setAdd, functionExit, paramRuleExitReports,
      mutatingIndices, programExitReports, freshState, isTypeScript, jsEndsWith,
      hasValidMutableMarker, argViolation, hb, hmB,
      List.isSuffixOf, List.isPrefixOf]
  · simp [runRule, visitStmts, visitStmt, visitExpr, visitExprs,
      progCallAfterDecl, progCallBeforeDecl, mutatingFunctionDecl,
      mutatingFunctionDeclTyped, collectParams, mapSet, mapGet, mapHas,
      checkCrossFunctionMutation, applyMutation, isMutatingOperation,
      isParameterMutation, rootOrObjectName, getRootObjectName, directObjectName,
      mutatedRootName, setAdd, functionExit, paramRuleExitReports,
      mutatingIndices, programExitReports, freshState, isTypeScript, jsEndsWith,
      hasValidMutableMarker, argViolation, hb, hmB,
      List.isSuffixOf, List.isPrefixOf]
  · simp [runRule, visitStmts, visitStmt, visitExpr, visitExprs,
      progCallAfterDecl, progCallBeforeDecl, mutatingFunctionDecl,
      mutatingFunctionDeclTyped, collectParams, mapSet, mapGet, mapHas,
      checkCrossFunctionMutation, applyMutation, isMutatingOperation,
      isParameterMutation, rootOrObjectName, getRootObjectName, directObjectName,
      mutatedRootName, setAdd, functionExit, paramRuleExitReports,
      mutatingIndices, programExitReports, freshState, isTypeScript, jsEndsWith,
      hasValidMutableMarker, argViolation, hb, hmB,
      List.isSuffixOf, List.isPrefixOf]
  · by_cases hgf : f = g
    · subst hgf
      simp [runRule, visitStmts, visitStmt, visitExpr, visitExprs,
      progCallAfterDecl, progCallBeforeDecl, mutatingFunctionDecl,
      mutatingFunctionDeclTyped, collectParams, mapSet, mapGet, mapHas,
      checkCrossFunctionMutation, applyMutation, isMutatingOperation,
      isParameterMutation, rootOrObjectName, getRootObjectName, directObjectName,
      mutatedRootName, setAdd, functionExit, paramRuleExitReports,
      mutatingIndices, programExitReports, freshState, isTypeScript, jsEndsWith,
      hasValidMutableMarker, argViolation, hb, hmB,
      List.isSuffixOf, List.isPrefixOf]
    · simp [hgf, runRule, visitStmts, visitStmt, visitExpr, visitExprs,
      progCallAfterDecl, progCallBeforeDecl, mutatingFunctionDecl,
      mutatingFunctionDeclTyped, collectParams, mapSet, mapGet, mapHas,
      checkCrossFunctionMutation, applyMutation, isMutatingOperation,
      isParameterMutation, rootOrObjectName, getRootObjectName, directObjectName,
      mutatedRootName, setAdd, functionExit, paramRuleExitReports,
      mutatingIndices, programExitReports, freshState, isTypeScript, jsEndsWith,
      hasValidMutableMarker, argViolation, hb, hmB,
      List.isSuffixOf, List.isPrefixOf]

/-- Witness for C1 at concrete inputs: `function f(mutA){ mutA.x = 1 }` with
calls `f(b)`, `f(mutB)`, and non-identifier arguments. -/
theorem claim_cross_function_propagation_witness :
    (hasMutPrefix "mutA" = true ∧ hasMutPrefix "b" = false ∧
      hasMutPrefix "mutB" = true) ∧
    (runRule RuleType.var "file.js" (progCallAfterDecl "f" "mutA" (Expr.ident "b"))
        = [argViolation false "b" "f"] ∧
    runRule RuleType.var "file.js" (progCallBeforeDecl "f" "mutA" (Expr.ident "b"))
        = [argViolation false "b" "f"] ∧
    runRule RuleType.var "file.js"
        (progCallAfterDecl "f" "mutA" (Expr.ident "mutB")) = [] ∧
    runRule RuleType.var "file.js" (progCallAfterDecl "f" "mutA" Expr.lit) = [] ∧
    runRule RuleType.var "file.js" (progCallAfterDecl "f" "mutA" Expr.objectLit) = [] ∧
    runRule RuleType.var "file.js" (progCallAfterDecl "f" "mutA" Expr.arrayLit) = [] ∧
    runRule RuleType.var "file.js"
        (progCallAfterDecl "f" "mutA" (Expr.call (Expr.ident "h") [])) = []) :=
  ⟨⟨by decide, by decide, by decide⟩,
   claim_cross_function_propagation "f" "mutA" "b" "mutB" "h"
     (by decide) (by decide) (by decide)⟩

/-- C10: when two nameable functions share a name and both have mutated
parameters, the later exit overwrites the earlier profile, and every call to
that name (including calls before either declaration) is checked against the
last-exited function's mutated positions only: in `progSharedName` the first
declaration mutates position 0 and the second position 1, and both calls
`f(x, y)` flag `y` only. -/
theorem claim_shared_name_overwrite (f x y : String)
    (hx : hasMutPrefix x = false) (hy : hasMutPrefix y = false) :
    (visitStmts RuleType.var false (progSharedName f x y) []
        freshState).2.functionsWithMutatingParams = [(f, [1])] ∧
    runRule RuleType.var "file.js" (progSharedName f x y)
      = [argViolation false y f, argViolation false y f] := by
  constructor
  · simp [visitStmts, visitStmt, visitExpr, visitExprs, progSharedName,
      collectParams, mapSet, mapGet, mapHas, checkCrossFunctionMutation,
      applyMutation, isMutatingOperation, isParameterMutation, rootOrObjectName,
      getRootObjectName, directObjectName, mutatedRootName, setAdd, functionExit,
      paramRuleExitReports, mutatingIndices, programExitReports, freshState, List.enum, List.enumFrom]
  · simp [runRule, visitStmts, visitStmt, visitExpr, visitExprs, progSharedName,
      collectParams, mapSet, mapGet, mapHas, checkCrossFunctionMutation,
      applyMutation, isMutatingOperation, isParameterMutation, rootOrObjectName,
      getRootObjectName, directObjectName, mutatedRootName, setAdd, functionExit,
      paramRuleExitReports, mutatingIndices, programExitReports, freshState,
      List.enum, List.enumFrom, isTypeScript, jsEndsWith, hasValidMutableMarker, argViolation, hx, hy,
      List.isSuffixOf, List.isPrefixOf]

/-- Witness for C10 at concrete inputs. -/
theorem claim_shared_name_overwrite_witness :
    (hasMutPrefix "u" = false ∧ hasMutPrefix "v" = false) ∧
    ((visitStmts RuleType.var false (progSharedName "f" "u" "v") []
        freshState).2.functionsWithMutatingParams = [("f", [1])] ∧
    runRule RuleType.var "file.js" (progSharedName "f" "u" "v")
      = [argViolation false "v" "f", argViolation false "v" "f"]) :=
  ⟨⟨by decide, by decide⟩,
   claim_shared_name_overwrite "f" "u" "v" (by decide) (by decide)⟩

/-- C9: the analysis is a pure function of the rule variant, filename and
AST: two independent invocations on the same AST yield identical violation
lists, and an invocation's result is unaffected by whatever invocations ran
before it (each invocation starts from `freshState`, as `create` allocates
its state afresh). -/
theorem claim_invocations_independent (rt : RuleType) (fn : String)
    (p : Program) (files files2 : List (String × Program)) :
    runBatch rt [(fn, p), (fn, p)] = [runRule rt fn p, runRule rt fn p] ∧
    runBatch rt (files ++ [(fn, p)]) = runBatch rt files ++ [runRule rt fn p] ∧
    runBatch rt (files ++ files2) = runBatch rt files ++ runBatch rt files2 ∧
    runRule rt fn p
      = (if rt = RuleType.var then
          (visitStmts rt (isTypeScript fn) p [] freshState).2.reports ++
            programExitReports (isTypeScript fn)
              (visitStmts rt (isTypeScript fn) p [] freshState).2
        else (visitStmts rt (isTypeScript fn) p [] freshState).2.reports) :=
  ⟨rfl, by simp [runBatch], by simp [runBatch], rfl⟩

/-- C6 counterexample: `const f = function(a){ a.x = 1 };  f(b);` — an
anonymous function expression assigned directly to the simple identifier `f`
at declaration time, with a mutated parameter and an unmarked argument at
the mutated position.  The claim requires a mutation profile for `f` to be
recorded and used at program exit, which would flag `b`; the rule emits no
violation, because a `FunctionExpression` is named only by its own `id`. -/
theorem claim_nameable_profile_counterexample :
    hasMutPrefix "b" = false ∧
    runRule RuleType.var "file.js" (progAnonFuncExprAssigned "f" "a" "b") = [] ∧
    (visitStmts RuleType.var false (progAnonFuncExprAssigned "f" "a" "b") []
        freshState).2.functionsWithMutatingParams = [] := by
  refine ⟨by decide, ?_, ?_⟩ <;>
  simp [runRule, visitStmts, visitStmt, visitExpr, visitExprs, visitDecls,
    visitDecl, visitDeclaratorEnter, progAnonFuncExprAssigned, collectParams,
    mapSet, mapGet, mapHas, checkCrossFunctionMutation, applyMutation,
    isMutatingOperation, isParameterMutation, rootOrObjectName,
    getRootObjectName, directObjectName, mutatedRootName, setAdd, functionExit,
    paramRuleExitReports, mutatingIndices, programExitReports, freshState,
    List.enum, List.enumFrom, isTypeScript, jsEndsWith, hasValidMutableMarker,
    hasMutTypeAnnotation, hasMutPrefix, jsStartsWith, jsLength,
    regexMutUpperTest, List.isSuffixOf, List.isPrefixOf]

/-- C6 amended: a mutation profile keyed by the function's name is recorded
(and used at program exit) for function declarations with an identifier, for
named function expressions (keyed by their own name), and for arrow
functions assigned directly to a simple identifier at declaration time — but
not for anonymous function expressions assigned to a variable; the recorded
positions are the ordered positions of the mutated parameters. -/
theorem claim_nameable_profile_amended (f g a b x y : String)
    (hb : hasMutPrefix b = false)
    (hx : hasMutPrefix x = false) (hy : hasMutPrefix y = false) :
    runRule RuleType.var "file.js" (progCallAfterDecl f a (Expr.ident b))
        = [argViolation false b f] ∧
    runRule RuleType.var "file.js" (progNamedFuncExprAssigned f g a b)
        = [argViolation false b g] ∧
    runRule RuleType.var "file.js" (progArrowAssigned f a b)
        = [argViolation false b f] ∧
    runRule RuleType.var "file.js" (progAnonFuncExprAssigned f a b) = [] ∧
    runRule RuleType.var "file.js" (progTwoMutated f x y)
        = [argViolation false x f, argViolation false y f] := by
  refine ⟨?_, ?_, ?_, ?_, ?_⟩ <;>
  simp [runRule, visitStmts, visitStmt, visitExpr, visitExprs, visitDecls,
    visitDecl, visitArrowBody, visitDeclaratorEnter, progCallAfterDecl,
    progNamedFuncExprAssigned, progArrowAssigned, progAnonFuncExprAssigned,
    progTwoMutated, mutatingFunctionDecl, mutatingFunctionDeclTyped,
    collectParams, mapSet, mapGet, mapHas, checkCrossFunctionMutation,
    applyMutation, isMutatingOperation, isParameterMutation, rootOrObjectName,
    getRootObjectName, directObjectName, mutatedRootName, setAdd, functionExit,
    paramRuleExitReports, mutatingIndices, programExitReports, freshState,
    List.enum, List.enumFrom, isTypeScript, jsEndsWith, hasValidMutableMarker,
    hasMutTypeAnnotation, argViolation, hb, hx, hy,
    List.isSuffixOf, List.isPrefixOf]

/-- Witness for the amended C6 at concrete inputs. -/
theorem claim_nameable_profile_amended_witness :
    (hasMutPrefix "b" = false ∧ hasMutPrefix "x" = false ∧
      hasMutPrefix "y" = false) ∧
    (runRule RuleType.var "file.js" (progCallAfterDecl "f" "a" (Expr.ident "b"))
        = [argViolation false "b" "f"] ∧
    runRule RuleType.var "file.js" (progNamedFuncExprAssigned "f" "g" "a" "b")
        = [argViolation false "b" "g"] ∧
    runRule RuleType.var "file.js" (progArrowAssigned "f" "a" "b")
        = [argViolation false "b" "f"] ∧
    runRule RuleType.var "file.js" (progAnonFuncExprAssigned "f" "a" "b") = [] ∧
    runRule RuleType.var "file.js" (progTwoMutated "f" "x" "y")
        = [argViolation false "x" "f", argViolation false "y" "f"]) :=
  ⟨⟨by decide, by decide, by decide⟩,
   claim_nameable_profile_amended "f" "g" "a" "b" "x" "y"
     (by decide) (by decide) (by decide)⟩

/-- C8: the dialect is selected purely by the filename suffix (`.ts`/`.tsx`
typed, everything else untyped); in the typed dialect a parameter is marked
only via the `Mut` wrapper type (the name prefix is not accepted for
parameters), while an argument/variable is marked if it was declared with
the `Mut` wrapper type or carries the name prefix. -/
theorem claim_dialect_selection (f g a b m u mB : String)
    (hm : hasMutPrefix m = true) (hu : hasMutPrefix u = false)
    (hb : hasMutPrefix b = false) (hmB : hasMutPrefix mB = true) :
    (∀ fn, isTypeScript fn = (jsEndsWith fn ".ts" || jsEndsWith fn ".tsx")) ∧
    (isTypeScript "file.ts" = true ∧ isTypeScript "file.tsx" = true ∧
      isTypeScript "file.js" = false ∧ isTypeScript "file.jsx" = false) ∧
    (∀ p, isValidMutableParam true p = hasMutType p) ∧
    (∀ mutVars n, hasValidMutableMarker true mutVars n
        = (mutVars.contains n || hasMutPrefix n)) ∧
    runRule RuleType.param "file.ts" [mutatingFunctionDeclTyped g m none]
        = [paramViolation true m (Param.ident m none)] ∧
    runRule RuleType.param "file.ts"
        [mutatingFunctionDeclTyped g u (some (TSType.typeRef "Mut"))] = [] ∧
    runRule RuleType.param "file.js" [mutatingFunctionDeclTyped g m none] = [] ∧
    runRule RuleType.var "file.ts"
        (progTypedVarCall f a b (some (TSType.typeRef "Mut"))) = [] ∧
    runRule RuleType.var "file.ts" (progTypedVarCall f a b none)
        = [argViolation true b f] ∧
    runRule RuleType.var "file.ts" (progTypedVarCall f a mB none) = [] := by
  refine ⟨fun fn => rfl, ⟨by decide, by decide, by decide, by decide⟩,
    fun p => rfl, fun mutVars n => rfl, ?_, ?_, ?_, ?_, ?_, ?_⟩ <;>
  simp [runRule, visitStmts, visitStmt, visitExpr, visitExprs, visitDecls,
    visitDecl, visitDeclaratorEnter, progTypedVarCall,
    mutatingFunctionDeclTyped, collectParams, mapSet, mapGet, mapHas,
    checkCrossFunctionMutation, applyMutation, isMutatingOperation,
    isParameterMutation, rootOrObjectName, getRootObjectName, directObjectName,
    mutatedRootName, setAdd, functionExit, paramRuleExitReports,
    mutatingIndices, programExitReports, freshState, List.enum, List.enumFrom,
    isTypeScript, jsEndsWith, hasValidMutableMarker, isValidMutableParam,
    hasMutType, hasMutTypeAnnotation, Param.name, paramViolation, argViolation,
    hm, hu, hb, hmB, List.isSuffixOf, List.isPrefixOf]

/-- Witness for C8 at concrete inputs. -/
theorem claim_dialect_selection_witness :
    (hasMutPrefix "mutUser" = true ∧ hasMutPrefix "user" = false ∧
      hasMutPrefix "b" = false ∧ hasMutPrefix "mutB" = true) ∧
    ((∀ fn, isTypeScript fn = (jsEndsWith fn ".ts" || jsEndsWith fn ".tsx")) ∧
    (isTypeScript "file.ts" = true ∧ isTypeScript "file.tsx" = true ∧
      isTypeScript "file.js" = false ∧ isTypeScript "file.jsx" = false) ∧
    (∀ p, isValidMutableParam true p = hasMutType p) ∧
    (∀ mutVars n, hasValidMutableMarker true mutVars n
        = (mutVars.contains n || hasMutPrefix n)) ∧
    runRule RuleType.param "file.ts" [mutatingFunctionDeclTyped "g" "mutUser" none]
        = [paramViolation true "mutUser" (Param.ident "mutUser" none)] ∧
    runRule RuleType.param "file.ts"
        [mutatingFunctionDeclTyped "g" "user" (some (TSType.typeRef "Mut"))] = [] ∧
    runRule RuleType.param "file.js" [mutatingFunctionDeclTyped "g" "mutUser" none] = [] ∧
    runRule RuleType.var "file.ts"
        (progTypedVarCall "f" "a" "b" (some (TSType.typeRef "Mut"))) = [] ∧
    runRule RuleType.var "file.ts" (progTypedVarCall "f" "a" "b" none)
        = [argViolation true "b" "f"] ∧
    runRule RuleType.var "file.ts" (progTypedVarCall "f" "a" "mutB" none) = []) :=
  ⟨⟨by decide, by decide, by decide, by decide⟩,
   claim_dialect_selection "f" "g" "a" "b" "mutUser" "user" "mutB"
     (by decide) (by decide) (by decide) (by decide)⟩

theorem foldl_append_mem_aux {α β : Type} (g : β → List α) (l : List β) :
    ∀ (init : List α) (v : α), v ∈ l.foldl (fun acc b => acc ++ g b) init →
      v ∈ init ∨ ∃ b, b ∈ l ∧ v ∈ g b := by
  induction l with
  | nil => intro init v h; exact Or.inl h
  | cons b bs ih =>
    intro init v h
    rcases ih (init ++ g b) v h with h' | ⟨b', hb', hv⟩
    · rcases List.mem_append.mp h' with h'' | h''
      · exact Or.inl h''
      · exact Or.inr ⟨b, List.mem_cons_self b bs, h''⟩
    · exact Or.inr ⟨b', List.mem_cons_of_mem _ hb', hv⟩

theorem foldl_append_shift_aux {α β : Type} (g : β → List α) (l : List β) :
    ∀ (init : List α),
      l.foldl (fun acc b => acc ++ g b) init
        = init ++ l.foldl (fun acc b => acc ++ g b) [] := by
  induction l with
  | nil => intro init; simp
  | cons b bs ih =>
    intro init
    simp only [List.foldl_cons]
    rw [ih (init ++ g b), ih ([] ++ g b)]
    simp

theorem paramRuleExitReports_eq_aux (isTS : Bool) (scope : FuncScope) :
    paramRuleExitReports isTS scope
      = scope.mutatedParams.foldl
          (fun acc paramName =>
            acc ++
              (match mapGet scope.params paramName with
               | some info =>
                 if !info.isValidMutable then
                   [{ node := RNode.paramNode info.node
                      message := getErrorMessage RuleType.param isTS paramName none }]
                 else []
               | none => [])) [] := by
  unfold paramRuleExitReports
  apply List.foldl_ext
  intro acc n _
  cases mapGet scope.params n with
  | some info => cases h : info.isValidMutable <;> simp [h]
  | none => simp

theorem paramExit_message_aux (isTS : Bool) (scope : FuncScope)
    (l : List String) :
    ∀ (acc : List Violation),
      (∀ v ∈ acc, ∃ n, v.message = getErrorMessage RuleType.param isTS n none) →
      ∀ v ∈ l.foldl
        (fun acc paramName =>
          match mapGet scope.params paramName with
          | some info =>
            if !info.isValidMutable then
              acc ++ [{ node := RNode.paramNode info.node
                        message := getErrorMessage RuleType.param isTS paramName none }]
            else acc
          | none => acc) acc,
      ∃ n, v.message = getErrorMessage RuleType.param isTS n none := by
  induction l with
  | nil => intro acc hacc v hv; exact hacc v hv
  | cons x xs ih =>
    intro acc hacc v hv
    simp only [List.foldl_cons] at hv
    refine ih _ ?_ v hv
    intro w hw
    cases hg : mapGet scope.params x with
    | none => rw [hg] at hw; exact hacc w hw
    | some info =>
      rw [hg] at hw
      by_cases hm : info.isValidMutable
      · simp only [hm] at hw
        exact hacc w hw
      · simp only [Bool.not_eq_true] at hm
        simp only [hm] at hw
        rcases List.mem_append.mp hw with h | h
        · exact hacc w h
        · rcases List.mem_singleton.mp h with rfl
          exact ⟨x, rfl⟩

theorem progExit_inner_message_aux (isTS : Bool) (mutVars : List String)
    (args : List Expr) (fname : String) (idx : List Nat) :
    ∀ (acc : List Violation),
      (∀ v ∈ acc, ∃ n fn, v.message = getErrorMessage RuleType.var isTS n (some fn)) →
      ∀ v ∈ idx.foldl
        (fun acc2 paramIndex =>
          match args.get? paramIndex with
          | some argument =>
            match argument with
            | Expr.ident argName =>
              if !hasValidMutableMarker isTS mutVars argName then
                acc2 ++ [{ node := RNode.argNode (Expr.ident argName)
                           message := getErrorMessage RuleType.var isTS argName (some fname) }]
              else acc2
            | _ => acc2
          | none => acc2) acc,
      ∃ n fn, v.message = getErrorMessage RuleType.var isTS n (some fn) := by
  induction idx with
  | nil => intro acc hacc v hv; exact hacc v hv
  | cons i is ih =>
    intro acc hacc v hv
    simp only [List.foldl_cons] at hv
    refine ih _ ?_ v hv
    intro w hw
    cases hg : args.get? i with
    | none => rw [hg] at hw; exact hacc w hw
    | some argument =>
      rw [hg] at hw
      match argument with
      | Expr.ident argName =>
        by_cases hm : hasValidMutableMarker isTS mutVars argName
        · simp only [hm] at hw
          exact hacc w hw
        · simp only [Bool.not_eq_true] at hm
          simp only [hm] at hw
          rcases List.mem_append.mp hw with h | h
          · exact hacc w h
          · rcases List.mem_singleton.mp h with rfl
            exact ⟨argName, fname, rfl⟩
      | Expr.member o p => exact hacc w hw
      | Expr.assign l r => exact hacc w hw
      | Expr.update a => exact hacc w hw
      | Expr.call c as => exact hacc w hw
      | Expr.funcExpr i2 ps b => exact hacc w hw
      | Expr.arrow ps b => exact hacc w hw
      | Expr.objectLit => exact hacc w hw
      | Expr.arrayLit => exact hacc w hw
      | Expr.lit => exact hacc w hw

theorem progExit_outer_message_aux (isTS : Bool) (s : RuleState)
    (calls : List CallRecord) :
    ∀ (acc : List Violation),
      (∀ v ∈ acc, ∃ n fn, v.message = getErrorMessage RuleType.var isTS n (some fn)) →
      ∀ v ∈ calls.foldl
        (fun acc call =>
          match mapGet s.functionsWithMutatingParams call.functionName with
          | some mutParamIndices =>
            mutParamIndices.foldl
              (fun acc2 paramIndex =>
                match call.arguments.get? paramIndex with
                | some argument =>
                  match argument with
                  | Expr.ident argName =>
                    if !hasValidMutableMarker isTS s.mutTypeVariables argName then
                      acc2 ++ [{ node := RNode.argNode (Expr.ident argName)
                                 message := getErrorMessage RuleType.var isTS
                                   argName (some call.functionName) }]
                    else acc2
                  | _ => acc2
                | none => acc2) acc
          | none => acc) acc,
      ∃ n fn, v.message = getErrorMessage RuleType.var isTS n (some fn) := by
  induction calls with
  | nil => intro acc hacc v hv; exact hacc v hv
  | cons c cs ih =>
    intro acc hacc v hv
    simp only [List.foldl_cons] at hv
    refine ih _ ?_ v hv
    intro w hw
    cases hg : mapGet s.functionsWithMutatingParams c.functionName with
    | none => rw [hg] at hw; exact hacc w hw
    | some idx =>
      rw [hg] at hw
      exact progExit_inner_message_aux isTS s.mutTypeVariables c.arguments
        c.functionName idx acc hacc w hw

theorem paramRuleExitReports_message_aux (isTS : Bool) (scope : FuncScope)
    (v : Violation) (hv : v ∈ paramRuleExitReports isTS scope) :
    ∃ n, v.message = getErrorMessage RuleType.param isTS n none := by
  unfold paramRuleExitReports at hv
  exact paramExit_message_aux isTS scope scope.mutatedParams []
    (by intro w hw; cases hw) v hv

theorem programExitReports_message_aux (isTS : Bool) (s : RuleState)
    (v : Violation) (hv : v ∈ programExitReports isTS s) :
    ∃ n fn, v.message = getErrorMessage RuleType.var isTS n (some fn) := by
  unfold programExitReports at hv
  exact progExit_outer_message_aux isTS s s.functionCalls []
    (by intro w hw; cases hw) v hv

/-- C7 counterexample: the number of distinct message templates — one per
violation kind (rule variant × dialect), instantiated at a fixed name — is
four, not six. -/
theorem claim_six_templates_counterexample :
    ((violationKinds.map
        (fun k => getErrorMessage k.1 k.2 "p" (some "f"))).dedup.length = 4) ∧
    ((violationKinds.map
        (fun k => getErrorMessage k.1 k.2 "p" (some "f"))).dedup.length ≠ 6) := by
  constructor <;> decide

/-- C7 amended: every violation message is built from a fixed template per
violation kind, and there are four templates in total — unmarked mutated
parameter in the untyped/typed dialect, unmarked propagated argument in the
untyped/typed dialect: every param-rule report instantiates the param
template of its dialect, every program-exit report instantiates the var
template of its dialect, and the four templates are pairwise distinct. -/
theorem claim_four_templates :
    ((violationKinds.map
        (fun k => getErrorMessage k.1 k.2 "p" (some "f"))).dedup.length = 4) ∧
    (∀ (isTS : Bool) (scope : FuncScope) (v : Violation),
      v ∈ paramRuleExitReports isTS scope →
      ∃ n, v.message = getErrorMessage RuleType.param isTS n none) ∧
    (∀ (isTS : Bool) (s : RuleState) (v : Violation),
      v ∈ programExitReports isTS s →
      ∃ n fn, v.message = getErrorMessage RuleType.var isTS n (some fn)) :=
  ⟨by decide, paramRuleExitReports_message_aux, programExitReports_message_aux⟩

theorem keys_contains_aux (m : List (String × ParamInfo)) (n : String) :
    (m.map (fun p => p.1)).contains n = mapHas m n := by
  induction m with
  | nil => rfl
  | cons p ps ih =>
    simp only [mapHas, List.map_cons, List.contains_cons, List.any_cons]
    rw [show (ps.map (fun p => p.1)).contains n = mapHas ps n from ih]
    simp [mapHas, Bool.beq_comm]

theorem applyMutation_eq_aux (e : Expr) (sc : FuncScope) :
    applyMutation e sc
      = (match nodeMutRoot e with
         | some n =>
           if mapHas sc.params n then
             { sc with mutatedParams := setAdd sc.mutatedParams n }
           else sc
         | none => sc) := by
  match e with
  | Expr.assign l r =>
    simp only [applyMutation, isMutatingOperation, isParameterMutation, nodeMutRoot,
      mutatedRootName, Bool.true_and]
    match l with
    | Expr.member o q =>
      cases hr : rootOrObjectName (Expr.member o q) with
      | none => simp
      | some n =>
        simp only [keys_contains_aux]
        by_cases hh : mapHas sc.params n = true
        · simp [hh]
        · simp only [Bool.not_eq_true] at hh
          simp [hh]
    | Expr.ident n => simp
    | Expr.assign a b => simp
    | Expr.update a => simp
    | Expr.call a b => simp
    | Expr.funcExpr a b c => simp
    | Expr.arrow a b => simp
    | Expr.objectLit => simp
    | Expr.arrayLit => simp
    | Expr.lit => simp
  | Expr.update a =>
    simp only [applyMutation, isMutatingOperation, isParameterMutation, nodeMutRoot,
      mutatedRootName, Bool.true_and]
    match a with
    | Expr.member o q =>
      cases hr : rootOrObjectName (Expr.member o q) with
      | none => simp
      | some n =>
        simp only [keys_contains_aux]
        by_cases hh : mapHas sc.params n = true
        · simp [hh]
        · simp only [Bool.not_eq_true] at hh
          simp [hh]
    | Expr.ident n => simp
    | Expr.assign x b => simp
    | Expr.update x => simp
    | Expr.call x b => simp
    | Expr.funcExpr x b c => simp
    | Expr.arrow x b => simp
    | Expr.objectLit => simp
    | Expr.arrayLit => simp
    | Expr.lit => simp
  | Expr.call c as =>
    simp only [applyMutation, isMutatingOperation, isParameterMutation, nodeMutRoot,
      mutatedRootName]
    match c with
    | Expr.member (Expr.ident n) m =>
      by_cases hm : mutatingMethods.contains m = true
      · simp only [hm, Bool.and_true, if_pos rfl, keys_contains_aux]
        by_cases hh : mapHas sc.params n = true
        · simp [hh, hm]
        · simp only [Bool.not_eq_true] at hh
          simp [hh, hm]
      · simp only [Bool.not_eq_true] at hm
        have hm2 : ¬ (m ∈ mutatingMethods) := by simpa using hm
        simp [hm, hm2]
    | Expr.member (Expr.member o p) m => simp
    | Expr.member (Expr.assign x y) m => simp
    | Expr.member (Expr.update x) m => simp
    | Expr.member (Expr.call x y) m => simp
    | Expr.member (Expr.funcExpr x y z) m => simp
    | Expr.member (Expr.arrow x y) m => simp
    | Expr.member Expr.objectLit m => simp
    | Expr.member Expr.arrayLit m => simp
    | Expr.member Expr.lit m => simp
    | Expr.ident n => simp
    | Expr.assign x y => simp
    | Expr.update x => simp
    | Expr.call x y => simp
    | Expr.funcExpr x y z => simp
    | Expr.arrow x y => simp
    | Expr.objectLit => simp
    | Expr.arrayLit => simp
    | Expr.lit => simp
  | Expr.ident n => rfl
  | Expr.member o p => rfl
  | Expr.funcExpr a b c => rfl
  | Expr.arrow a b => rfl
  | Expr.objectLit => rfl
  | Expr.arrayLit => rfl
  | Expr.lit => rfl

theorem applyMutation_none_aux (e : Expr) (sc : FuncScope)
    (h : nodeMutRoot e = none) : applyMutation e sc = sc := by
  rw [applyMutation_eq_aux, h]

theorem map_applyMutation_none_aux (e : Expr) (stack : List FuncScope)
    (h : nodeMutRoot e = none) : stack.map (applyMutation e) = stack := by
  rw [show stack.map (applyMutation e) = stack.map id from
    List.map_congr_left (fun sc _ => applyMutation_none_aux e sc h), List.map_id]

theorem checkCross_param_aux (e : Expr) (s : RuleState) :
    checkCrossFunctionMutation RuleType.param e s = s := by
  match e with
  | Expr.ident _ => rfl
  | Expr.member _ _ => rfl
  | Expr.assign _ _ => rfl
  | Expr.update _ => rfl
  | Expr.call _ _ => rfl
  | Expr.funcExpr _ _ _ => rfl
  | Expr.arrow _ _ => rfl
  | Expr.objectLit => rfl
  | Expr.arrayLit => rfl
  | Expr.lit => rfl

theorem declEnter_param_aux (ts : Bool) (id : BindingId) (s : RuleState) :
    visitDeclaratorEnter RuleType.param ts id s = s := by
  simp [visitDeclaratorEnter]

theorem functionExit_param_empty_aux (ts : Bool) (id : Option String)
    (astParams : List Param) (ps : List (String × ParamInfo)) (s : RuleState) :
    functionExit RuleType.param ts id astParams ⟨ps, []⟩ s = s := by
  simp [functionExit, paramRuleExitReports]

theorem toList_append_eq_nil_aux (o : Option String) (a b : List String)
    (h : o.toList ++ a ++ b = []) : o = none ∧ a = [] ∧ b = [] := by
  cases o with
  | none => simp only [Option.toList_none, List.nil_append] at h
            exact ⟨rfl, List.append_eq_nil.mp h⟩
  | some n => simp at h

theorem toList_append2_eq_nil_aux (o : Option String) (a : List String)
    (h : o.toList ++ a = []) : o = none ∧ a = [] := by
  cases o with
  | none => simp only [Option.toList_none, List.nil_append] at h
            exact ⟨rfl, h⟩
  | some n => simp at h

mutual
theorem visitExpr_param_pure (ts : Bool) (dn : Option String) (e : Expr)
    (stack : List FuncScope) (s : RuleState) (h : mutRootsExpr e = []) :
    visitExpr RuleType.param ts dn e stack s = (stack, s) := by
  match e with
  | Expr.ident _ => simp [visitExpr]
  | Expr.objectLit => simp [visitExpr]
  | Expr.arrayLit => simp [visitExpr]
  | Expr.lit => simp [visitExpr]
  | Expr.member o p =>
    simp only [mutRootsExpr] at h
    simp only [visitExpr]
    exact visitExpr_param_pure ts none o stack s h
  | Expr.assign l r =>
    simp only [mutRootsExpr] at h
    obtain ⟨hn, hl, hr⟩ := toList_append_eq_nil_aux _ _ _ h
    simp only [visitExpr, checkCross_param_aux,
      map_applyMutation_none_aux (Expr.assign l r) stack hn]
    rw [visitExpr_param_pure ts none l stack s hl]
    exact visitExpr_param_pure ts none r stack s hr
  | Expr.update a =>
    simp only [mutRootsExpr] at h
    obtain ⟨hn, ha⟩ := toList_append2_eq_nil_aux _ _ h
    simp only [visitExpr, checkCross_param_aux,
      map_applyMutation_none_aux (Expr.update a) stack hn]
    exact visitExpr_param_pure ts none a stack s ha
  | Expr.call c as =>
    simp only [mutRootsExpr] at h
    obtain ⟨hn, hc, has⟩ := toList_append_eq_nil_aux _ _ _ h
    simp only [visitExpr, checkCross_param_aux,
      map_applyMutation_none_aux (Expr.call c as) stack hn]
    rw [visitExpr_param_pure ts none c stack s hc]
    exact visitExprs_param_pure ts as stack s has
  | Expr.funcExpr id' params body =>
    simp only [mutRootsExpr] at h
    simp only [visitExpr]
    rw [visitStmts_param_pure ts body
      ({ params := collectParams RuleType.param ts params, mutatedParams := [] } :: stack)
      s h]
    simp [functionExit_param_empty_aux]
  | Expr.arrow params b =>
    simp only [mutRootsExpr] at h
    simp only [visitExpr]
    rw [visitArrowBody_param_pure ts b
      ({ params := collectParams RuleType.param ts params, mutatedParams := [] } :: stack)
      s h]
    simp [functionExit_param_empty_aux]

theorem visitExprs_param_pure (ts : Bool) (es : List Expr)
    (stack : List FuncScope) (s : RuleState) (h : mutRootsExprs es = []) :
    visitExprs RuleType.param ts es stack s = (stack, s) := by
  match es with
  | [] => simp [visitExprs]
  | e :: rest =>
    simp only [mutRootsExprs, List.append_eq_nil] at h
    simp only [visitExprs]
    rw [visitExpr_param_pure ts none e stack s h.1]
    exact visitExprs_param_pure ts rest stack s h.2

theorem visitArrowBody_param_pure (ts : Bool) (b : ArrowBody)
    (stack : List FuncScope) (s : RuleState) (h : mutRootsArrowBody b = []) :
    visitArrowBody RuleType.param ts b stack s = (stack, s) := by
  match b with
  | ArrowBody.expr e =>
    simp only [mutRootsArrowBody] at h
    simp only [visitArrowBody]
    exact visitExpr_param_pure ts none e stack s h
  | ArrowBody.block sts =>
    simp only [mutRootsArrowBody] at h
    simp only [visitArrowBody]
    exact visitStmts_param_pure ts sts stack s h

theorem visitStmt_param_pure (ts : Bool) (st : Stmt)
    (stack : List FuncScope) (s : RuleState) (h : mutRootsStmt st = []) :
    visitStmt RuleType.param ts st stack s = (stack, s) := by
  match st with
  | Stmt.funcDecl id' params body =>
    simp only [mutRootsStmt] at h
    simp only [visitStmt]
    rw [visitStmts_param_pure ts body
      ({ params := collectParams RuleType.param ts params, mutatedParams := [] } :: stack)
      s h]
    simp [functionExit_param_empty_aux]
  | Stmt.varDecl ds =>
    simp only [mutRootsStmt] at h
    simp only [visitStmt]
    exact visitDecls_param_pure ts ds stack s h
  | Stmt.exprStmt e =>
    simp only [mutRootsStmt] at h
    simp only [visitStmt]
    exact visitExpr_param_pure ts none e stack s h
  | Stmt.ret (some e) =>
    simp only [mutRootsStmt] at h
    simp only [visitStmt]
    exact visitExpr_param_pure ts none e stack s h
  | Stmt.ret none => simp [visitStmt]
  | Stmt.emptyStmt => simp [visitStmt]

theorem visitStmts_param_pure (ts : Bool) (sts : List Stmt)
    (stack : List FuncScope) (s : RuleState) (h : mutRootsStmts sts = []) :
    visitStmts RuleType.param ts sts stack s = (stack, s) := by
  match sts with
  | [] => simp [visitStmts]
  | st :: rest =>
    simp only [mutRootsStmts, List.append_eq_nil] at h
    simp only [visitStmts]
    rw [visitStmt_param_pure ts st stack s h.1]
    exact visitStmts_param_pure ts rest stack s h.2

theorem visitDecl_param_pure (ts : Bool) (d : Declarator)
    (stack : List FuncScope) (s : RuleState) (h : mutRootsDecl d = []) :
    visitDecl RuleType.param ts d stack s = (stack, s) := by
  match d with
  | Declarator.mk id' (some e) =>
    simp only [mutRootsDecl] at h
    simp only [visitDecl, declEnter_param_aux]
    exact visitExpr_param_pure ts _ e stack s h
  | Declarator.mk id' none =>
    simp [visitDecl, declEnter_param_aux]

theorem visitDecls_param_pure (ts : Bool) (ds : List Declarator)
    (stack : List FuncScope) (s : RuleState) (h : mutRootsDecls ds = []) :
    visitDecls RuleType.param ts ds stack s = (stack, s) := by
  match ds with
  | [] => simp [visitDecls]
  | d :: rest =>
    simp only [mutRootsDecls, List.append_eq_nil] at h
    simp only [visitDecls]
    rw [visitDecl_param_pure ts d stack s h.1]
    exact visitDecls_param_pure ts rest stack s h.2
end

theorem paramExit_filterMap_aux (isTS : Bool) (scope : FuncScope)
    (l : List String) :
    ∀ (init : List Violation),
      l.foldl
        (fun acc paramName =>
          match mapGet scope.params paramName with
          | some info =>
            if !info.isValidMutable then
              acc ++ [{ node := RNode.paramNode info.node
                        message := getErrorMessage RuleType.param isTS paramName none }]
            else acc
          | none => acc) init
      = init ++ l.filterMap
          (fun paramName =>
            match mapGet scope.params paramName with
            | some info =>
              if info.isValidMutable then none
              else some (paramViolation isTS paramName info.node)
            | none => none) := by
  induction l with
  | nil => intro init; simp
  | cons n ns ih =>
    intro init
    simp only [List.foldl_cons, List.filterMap_cons]
    cases hg : mapGet scope.params n with
    | none =>
      simp only [hg]
      rw [ih]
    | some info =>
      by_cases hm : info.isValidMutable
      · simp only [hg, hm, Bool.not_true]
        rw [ih]
        simp
      · simp only [Bool.not_eq_true] at hm
        simp only [hg, hm, Bool.not_false]
        rw [ih]
        simp [paramViolation]

/-- C4: on function exit the param rule emits exactly one violation per
parameter in the mutated set whose marker is invalid, in set-insertion order,
referencing that parameter's declaration node (the `filterMap`
characterization); no violation for parameters not in the set (an empty set
yields no reports), and a whole program containing no mutating operation
attributable to any parameter yields zero violations. -/
theorem claim_param_rule_exit_behavior (isTS : Bool) (scope : FuncScope)
    (fn : String) (program : Program) (h : mutRootsStmts program = []) :
    (paramRuleExitReports isTS scope
      = scope.mutatedParams.filterMap
          (fun paramName =>
            match mapGet scope.params paramName with
            | some info =>
              if info.isValidMutable then none
              else some (paramViolation isTS paramName info.node)
            | none => none)) ∧
    (scope.mutatedParams = [] → paramRuleExitReports isTS scope = []) ∧
    runRule RuleType.param fn program = [] := by
  refine ⟨?_, ?_, ?_⟩
  · unfold paramRuleExitReports
    rw [paramExit_filterMap_aux]
    simp
  · intro hmp
    unfold paramRuleExitReports
    rw [hmp]
    rfl
  · simp only [runRule]
    rw [visitStmts_param_pure (isTypeScript fn) program [] freshState h]
    simp [freshState]

/-- Witness for C4 at concrete inputs: `function h(items){ return
items.map((i) => i); }` has no mutating operation on any parameter and
yields zero violations. -/
theorem claim_param_rule_exit_behavior_witness :
    mutRootsStmts
        [Stmt.funcDecl (some "h") [Param.ident "items" none]
          [Stmt.ret (some (Expr.call (Expr.member (Expr.ident "items") "map")
            [Expr.arrow [Param.ident "i" none]
              (ArrowBody.expr (Expr.ident "i"))]))]] = [] ∧
    ((paramRuleExitReports false { params := [], mutatedParams := [] }
      = List.filterMap
          (fun paramName =>
            match mapGet (FuncScope.mk [] []).params paramName with
            | some info =>
              if info.isValidMutable then none
              else some (paramViolation false paramName info.node)
            | none => none) (FuncScope.mk [] []).mutatedParams) ∧
    ((FuncScope.mk [] []).mutatedParams = [] →
      paramRuleExitReports false { params := [], mutatedParams := [] } = []) ∧
    runRule RuleType.param "file.js"
        [Stmt.funcDecl (some "h") [Param.ident "items" none]
          [Stmt.ret (some (Expr.call (Expr.member (Expr.ident "items") "map")
            [Expr.arrow [Param.ident "i" none]
              (ArrowBody.expr (Expr.ident "i"))]))]] = []) :=
  ⟨by decide,
   claim_param_rule_exit_behavior false { params := [], mutatedParams := [] }
     "file.js" _ (by decide)⟩

end Mutate
